import Mathlib

/-!
Verification of the read-through caching subsystem of the Students_managment
repository (ICacheService / MemoryCacheService / RedisCacheService wired into
StudentService).  Every definition below is a shallow embedding of the
corresponding C# source in src/StudentManagementAPI; doc comments name the
source symbol each definition mirrors.
-/

namespace StudentCache

/-- Time instants and durations, in minutes (the service only ever uses
`TimeSpan.FromMinutes`).  An absolute expiry is a `Time`; `now + ttl` gives
the `AbsoluteExpirationRelativeToNow` semantics of both cache backends. -/
abbrev Time := Nat

/-- `Models/Student.cs`.  `BirthDate : DateTime` is modelled as an opaque
tick count and `AverageGrade : double` as an opaque numeric code: the
service only copies these fields, never computes with them, so the carrier
only needs decidable equality. -/
structure Student where
  studentId : Int
  fullName : String
  birthDate : Nat
  averageGrade : Int
  isActive : Bool
deriving DecidableEq

/-- `Models/StudentDto.cs`: the external-facing projection of `Student`. -/
structure StudentDto where
  studentId : Int
  fullName : String
  birthDate : Nat
  averageGrade : Int
  isActive : Bool
deriving DecidableEq

/-- The `Select(s => new StudentDto {...})` projection used by
`StudentService.GetAllStudentsAsync` / `GetStudentByIdAsync`, and the DTO
construction in the mutation methods: all five fields copied verbatim. -/
def toDto (s : Student) : StudentDto :=
  ⟨s.studentId, s.fullName, s.birthDate, s.averageGrade, s.isActive⟩

/-! ### Pattern matching on keys

`MemoryCacheService.RemoveByPatternAsync` builds
`new Regex(pattern.Replace("*", ".*"), RegexOptions.IgnoreCase)` and calls
`regex.IsMatch(key)`: an UNanchored, case-insensitive search.
`RedisCacheService.RemoveByPatternAsync` passes the pattern to
`server.Keys(pattern: ...)`, i.e. Redis glob matching: anchored (full-key)
and case-sensitive.  Patterns used by this program are literals plus `*`;
the matchers below cover exactly that class. -/

/-- Anchored shell-glob match (`*` = any sequence), case-sensitive: the
semantics of Redis `KEYS`/`SCAN MATCH` on literal-and-star patterns.  A
star consumes an arbitrary prefix, i.e. the rest of the pattern must match
one of the suffixes of the input. -/
def globMatch : List Char → List Char → Bool
  | [], s => s.isEmpty
  | '*' :: p, s => s.tails.any (fun t => globMatch p t)
  | _ :: _, [] => false
  | c :: p, d :: s => (c == d) && globMatch p s

/-- Does the regex obtained from a literal-and-star glob (with `*` turned
into `.*`) match starting at the head of `s` (possibly consuming only a
part of `s`), case-insensitively?  One anchor position of .NET
`Regex.IsMatch` under `RegexOptions.IgnoreCase`. -/
def globFindCI : List Char → List Char → Bool
  | [], _ => true
  | '*' :: p, s => s.tails.any (fun t => globFindCI p t)
  | _ :: _, [] => false
  | c :: p, d :: s => (c.toLower == d.toLower) && globFindCI p s

/-- .NET `Regex.IsMatch`: try every start position in `s`. -/
def regexFind : List Char → List Char → Bool
  | p, [] => globFindCI p []
  | p, d :: s => globFindCI p (d :: s) || regexFind p s

/-- Key matching as performed by `MemoryCacheService.RemoveByPatternAsync`:
`new Regex(pattern.Replace("*", ".*"), RegexOptions.IgnoreCase).IsMatch(key)`. -/
def memPatternMatch (pat key : String) : Bool :=
  regexFind pat.data key.data

/-- Key matching as performed by the Redis server for
`RedisCacheService.RemoveByPatternAsync`: anchored case-sensitive glob. -/
def redisPatternMatch (pat key : String) : Bool :=
  globMatch pat.data key.data

/-- Modelled from the spec's words (for comparison only): "a shell-glob-style
pattern (`*` = wildcard) case-insensitively" — an anchored glob match after
lowering both sides. -/
def specPatternMatch (pat key : String) : Bool :=
  globMatch (pat.data.map Char.toLower) (key.data.map Char.toLower)

/-- A small executable text decoder for naturals, standing in for
`JsonSerializer.Deserialize` in concrete witnesses: fails on any non-digit
payload. -/
def natDecode (s : String) : Option Nat :=
  s.data.foldl
    (fun acc? c => acc?.bind (fun acc =>
      if c.isDigit then some (acc * 10 + (c.toNat - 48)) else none))
    (some 0)

/-! ### The in-process cache: `Services/MemoryCacheService.cs`

`IMemoryCache` stores `object` values; `GetAsync<T>` first tests `value is T`,
then falls back to `value is string` + `JsonSerializer.Deserialize<T>` with
`JsonException` mapped to `default`.  Stored objects are therefore either a
typed payload or a raw string. -/

/-- A value held in the `IMemoryCache` backing store (`object`-typed slot). -/
inductive ObjVal (α : Type) where
  | typed : α → ObjVal α
  | str : String → ObjVal α
deriving DecidableEq

/-- One `IMemoryCache` entry: the stored object plus its absolute expiry
(`AbsoluteExpirationRelativeToNow` resolved against the `set` time). -/
structure MemEntry (α : Type) where
  val : ObjVal α
  expiry : Time
deriving DecidableEq

/-- A cache mutation, recorded so that the order of invalidation calls is
observable in proofs. -/
inductive CacheEvt where
  | setKey : String → CacheEvt
  | removeKey : String → CacheEvt
  | removePattern : String → CacheEvt
deriving DecidableEq

/-- State of `MemoryCacheService`: the `IMemoryCache` entries, the
`_keyTracker` set, and a log of mutations (most recent first). -/
structure MemCache (α : Type) where
  entries : List (String × MemEntry α)
  keyTracker : List String
  log : List CacheEvt
deriving DecidableEq

/-- Association-list lookup used for both cache stores. -/
def lookupEntry (entries : List (String × β)) (k : String) : Option β :=
  (entries.find? (fun e => e.1 == k)).map (·.2)

/-- The `value is T` test plus the string-deserialization fallback of
`MemoryCacheService.GetAsync<T>`: `tcast` is the runtime type test
(`value is T`), `dec` is `JsonSerializer.Deserialize<T>` with `JsonException`
already mapped to `none`. -/
def objCast (dec : String → Option β) (tcast : α → Option β) : ObjVal α → Option β
  | .typed a => tcast a
  | .str s => dec s

namespace MemCache

/-- `MemoryCacheService.GetAsync<T>`: `TryGetValue` yields the entry only
while it is unexpired (an `IMemoryCache` entry is expired once
`now ≥ absolute expiry`), then the `value is T` / string branches run.
Returns `none` (never an error) otherwise. -/
def getVal (c : MemCache α) (cast : ObjVal α → Option β) (k : String) (now : Time) :
    Option β :=
  match lookupEntry c.entries k with
  | some e => if now < e.expiry then cast e.val else none
  | none => none

/-- `MemoryCacheService.SetAsync`: store under `k` with absolute expiry
`now + ttl`, overwriting any previous entry for `k`, and register `k` in
`_keyTracker` (`TryAdd`; the eviction callback fired for a replaced entry
removes the key, and the net effect of the overwrite is that `k` stays
tracked). -/
def set (c : MemCache α) (k : String) (v : ObjVal α) (ttl now : Time) : MemCache α :=
  { entries := (k, ⟨v, now + ttl⟩) :: c.entries.filter (fun e => e.1 != k)
    keyTracker := if c.keyTracker.contains k then c.keyTracker else k :: c.keyTracker
    log := .setKey k :: c.log }

/-- `MemoryCacheService.RemoveAsync`: `_cache.Remove(key)` then
`_keyTracker.TryRemove(key)`; a no-op when absent. -/
def remove (c : MemCache α) (k : String) : MemCache α :=
  { entries := c.entries.filter (fun e => e.1 != k)
    keyTracker := c.keyTracker.filter (fun x => x != k)
    log := .removeKey k :: c.log }

/-- `MemoryCacheService.RemoveByPatternAsync`: collect the `_keyTracker`
keys matched by the (unanchored, case-insensitive) regex and remove each
from the store and the tracker.  Only tracked keys are swept. -/
def removeByPattern (c : MemCache α) (pat : String) : MemCache α :=
  let keysToRemove := c.keyTracker.filter (fun k => memPatternMatch pat k)
  { entries := c.entries.filter (fun e => !keysToRemove.contains e.1)
    keyTracker := c.keyTracker.filter (fun k => !memPatternMatch pat k)
    log := .removePattern pat :: c.log }

/-- `MemoryCacheService.ExistsAsync`: membership in `_keyTracker` only —
the backing store and entry expiries are not consulted. -/
def existsKey (c : MemCache α) (k : String) : Bool :=
  c.keyTracker.contains k

/-- The `IMemoryCache` runtime's eviction of expired entries: each evicted
entry fires the `PostEvictionCallback` registered by `SetAsync`, which
removes its key from `_keyTracker`.  Modelled as an eager sweep at time
`now` (the runtime performs it lazily on cache activity). -/
def purge (c : MemCache α) (now : Time) : MemCache α :=
  let dead := (c.entries.filter (fun e => e.2.expiry ≤ now)).map (·.1)
  { entries := c.entries.filter (fun e => now < e.2.expiry)
    keyTracker := c.keyTracker.filter (fun k => !dead.contains k)
    log := c.log }

end MemCache

/-- The empty in-process cache (fresh `MemoryCacheService`). -/
def emptyMem (α : Type) : MemCache α := ⟨[], [], []⟩

/-! ### The shared/networked cache: `Services/RedisCacheService.cs`

Values are serialized to JSON text before storage (`SetStringAsync`) and
deserialized on read; the remote store owns expiry.  Redis expiry is
logically immediate: a key at or past its expiry is invisible to `GET`,
`EXISTS` and `KEYS`. -/

/-- State of the remote store: key ↦ (serialized payload, absolute expiry).
The mutation log mirrors the one kept for the in-process variant. -/
structure RedisCache where
  entries : List (String × (String × Time))
  log : List CacheEvt
deriving DecidableEq

namespace RedisCache

/-- `RedisCacheService.GetAsync<T>`: `GetStringAsync` returns the payload
only for a live key; `JsonSerializer.Deserialize<T>` with `JsonException`
caught yields `dec`; missing/expired keys and corrupt payloads give `none`. -/
def getVal (c : RedisCache) (dec : String → Option β) (k : String) (now : Time) :
    Option β :=
  match lookupEntry c.entries k with
  | some (p, e) => if now < e then dec p else none
  | none => none

/-- `RedisCacheService.SetAsync`: `SetStringAsync` of the serialized payload
with `AbsoluteExpirationRelativeToNow`, overwriting any previous entry. -/
def set (c : RedisCache) (k payload : String) (ttl now : Time) : RedisCache :=
  { entries := (k, (payload, now + ttl)) :: c.entries.filter (fun e => e.1 != k)
    log := .setKey k :: c.log }

/-- `RedisCacheService.RemoveAsync`. -/
def remove (c : RedisCache) (k : String) : RedisCache :=
  { entries := c.entries.filter (fun e => e.1 != k)
    log := .removeKey k :: c.log }

/-- `RedisCacheService.RemoveByPatternAsync`: `server.Keys(pattern)` yields
the live keys matching the glob (anchored, case-sensitive); each is deleted.
Expired residue is untouched (it is already invisible). -/
def removeByPattern (c : RedisCache) (pat : String) (now : Time) : RedisCache :=
  { entries := c.entries.filter (fun e => !(redisPatternMatch pat e.1 && decide (now < e.2.2)))
    log := .removePattern pat :: c.log }

/-- `RedisCacheService.ExistsAsync`: `KeyExistsAsync`, true only for a live
(unexpired) key. -/
def existsKey (c : RedisCache) (k : String) (now : Time) : Bool :=
  match lookupEntry c.entries k with
  | some (_, e) => decide (now < e)
  | none => false

end RedisCache

/-- The empty remote store. -/
def emptyRedis : RedisCache := ⟨[], []⟩

/-! ### Persistence: `StudentDbContext` over SQLite (EF Core)

The persistence backend is external to the cache subsystem; it is modelled
as the keyed record store the service sees through EF: the `Students` table,
the auto-increment id source, and a persistence-call counter (the spec's
"persistence call counter" used to state the read-through property). -/

/-- The record store behind `StudentDbContext`. -/
structure Db where
  students : List Student
  nextId : Int
  calls : Nat
deriving DecidableEq

namespace Db

/-- `_context.Students.Select(...).ToListAsync()` in `GetAllStudentsAsync`:
one persistence query returning the full collection projected to DTOs. -/
def queryAllDtos (db : Db) : List StudentDto × Db :=
  (db.students.map toDto, { db with calls := db.calls + 1 })

/-- `.Where(s => s.StudentId == id)...FirstOrDefaultAsync()` /
`FindAsync(id)`: one persistence query for a single record. -/
def findById (db : Db) (id : Int) : Option Student × Db :=
  (db.students.find? (fun s => s.studentId == id), { db with calls := db.calls + 1 })

/-- `Students.Add` + `SaveChangesAsync` in `CreateStudentAsync`: EF assigns
the auto-generated key (the code resets `StudentId` to 0 first, so the
stored id is exactly the generated one). -/
def insertStudent (db : Db) (s : Student) : Student × Db :=
  let s' : Student := { s with studentId := db.nextId }
  (s', { db with students := db.students ++ [s']
                 nextId := db.nextId + 1
                 calls := db.calls + 1 })

/-- The field overwrite + `SaveChangesAsync` in `UpdateStudentAsync`: all
mutable fields are replaced, the original id is preserved. -/
def saveUpdated (db : Db) (id : Int) (s : Student) : Db :=
  { db with
    students := db.students.map (fun t =>
      if t.studentId == id then
        { studentId := t.studentId, fullName := s.fullName, birthDate := s.birthDate
          averageGrade := s.averageGrade, isActive := s.isActive }
      else t)
    calls := db.calls + 1 }

/-- `Students.Remove` + `SaveChangesAsync` in `DeleteStudentAsync` (ids are
unique, so removing the found entity is removal by id). -/
def deleteById (db : Db) (id : Int) : Db :=
  { db with students := db.students.filter (fun t => t.studentId != id)
            calls := db.calls + 1 }

end Db

/-! ### The cache as seen by `StudentService`

`ICacheService` methods are `async` and may throw: `StudentService` wraps
none of its cache calls in `try`/`catch`, so any cache exception propagates
out of the service operation.  The interface is therefore modelled in
`Except Unit` (`.error` = a thrown cache exception), instantiated below by
the never-throwing in-process implementation and, for the error-propagation
analysis, by throwing backends. -/

/-- The `ICacheService` surface at the two instantiations `StudentService`
uses (`GetAsync<IEnumerable<StudentDto>>` / `GetAsync<StudentDto>` etc.),
over a cache-backend state `σ`. -/
structure CacheOps (σ : Type) where
  getList : σ → String → Time → Except Unit (Option (List StudentDto) × σ)
  getStudent : σ → String → Time → Except Unit (Option StudentDto × σ)
  setList : σ → String → List StudentDto → Time → Time → Except Unit σ
  setStudent : σ → String → StudentDto → Time → Time → Except Unit σ
  removeKey : σ → String → Except Unit σ
  removeByPattern : σ → String → Except Unit σ

deriving instance DecidableEq for Except

/-- The single-record cache key `$"student:{id}"`. -/
def studentKey (id : Int) : String := "student:" ++ toString id

/-- The collection cache key `"students:all"`. -/
def allKey : String := "students:all"

/-- `StudentService.GetAllStudentsAsync`: check `"students:all"`; on hit
return the cached collection; on miss query persistence, cache the
projection for 5 minutes, return it. -/
def getAllStudents (C : CacheOps σ) (cs : σ) (db : Db) (now : Time) :
    Except Unit (List StudentDto × σ × Db) :=
  match C.getList cs allKey now with
  | .error e => .error e
  | .ok (some cached, cs') => .ok (cached, cs', db)
  | .ok (none, cs') =>
    let (dtos, db') := db.queryAllDtos
    match C.setList cs' allKey dtos 5 now with
    | .error e => .error e
    | .ok cs'' => .ok (dtos, cs'', db')

/-- `StudentService.GetStudentByIdAsync`: check `"student:{id}"`; on hit
return it; on miss query persistence; `null` when absent (nothing cached);
otherwise cache the projection for 10 minutes and return it. -/
def getStudentById (C : CacheOps σ) (cs : σ) (db : Db) (id : Int) (now : Time) :
    Except Unit (Option StudentDto × σ × Db) :=
  match C.getStudent cs (studentKey id) now with
  | .error e => .error e
  | .ok (some cached, cs') => .ok (some cached, cs', db)
  | .ok (none, cs') =>
    let (res, db') := db.findById id
    match res with
    | none => .ok (none, cs', db')
    | some st =>
      match C.setStudent cs' (studentKey id) (toDto st) 10 now with
      | .error e => .error e
      | .ok cs'' => .ok (some (toDto st), cs'', db')

/-- `StudentService.InvalidateStudentCacheAsync`: remove the specific key,
then the collection key, then sweep `"students:*"` — sequentially, with no
exception handling. -/
def invalidateStudentCache (C : CacheOps σ) (cs : σ) (id : Int) : Except Unit σ :=
  match C.removeKey cs (studentKey id) with
  | .error e => .error e
  | .ok cs1 =>
    match C.removeKey cs1 allKey with
    | .error e => .error e
    | .ok cs2 => C.removeByPattern cs2 "students:*"

/-- `StudentService.CreateStudentAsync`: persist (EF assigns the id), build
the DTO, invalidate, return the DTO. -/
def createStudent (C : CacheOps σ) (cs : σ) (db : Db) (s : Student) :
    Except Unit (StudentDto × σ × Db) :=
  let (s', db') := db.insertStudent s
  match invalidateStudentCache C cs s'.studentId with
  | .error e => .error e
  | .ok cs' => .ok (toDto s', cs', db')

/-- `StudentService.UpdateStudentAsync`: `FindAsync`; `null` when absent
(no invalidation); otherwise overwrite fields, save, invalidate, return the
updated DTO. -/
def updateStudent (C : CacheOps σ) (cs : σ) (db : Db) (id : Int) (s : Student) :
    Except Unit (Option StudentDto × σ × Db) :=
  let (found, db1) := db.findById id
  match found with
  | none => .ok (none, cs, db1)
  | some existing =>
    let updated : Student :=
      { studentId := existing.studentId, fullName := s.fullName
        birthDate := s.birthDate, averageGrade := s.averageGrade
        isActive := s.isActive }
    let db2 := db1.saveUpdated id s
    match invalidateStudentCache C cs id with
    | .error e => .error e
    | .ok cs' => .ok (some (toDto updated), cs', db2)

/-- `StudentService.DeleteStudentAsync`: `FindAsync`; `false` when absent
(no invalidation); otherwise remove, save, invalidate, return `true`. -/
def deleteStudent (C : CacheOps σ) (cs : σ) (db : Db) (id : Int) :
    Except Unit (Bool × σ × Db) :=
  let (found, db1) := db.findById id
  match found with
  | none => .ok (false, cs, db1)
  | some _ =>
    let db2 := db1.deleteById id
    match invalidateStudentCache C cs id with
    | .error e => .error e
    | .ok cs' => .ok (true, cs', db2)

/-! ### The in-process instantiation used by the running program

`Program.cs` registers `ICacheService ↦ MemoryCacheService`.  The cache
value universe the service actually stores is a `List<StudentDto>` under the
collection key and a `StudentDto` under record keys. -/

/-- The `object` payloads `StudentService` ever stores. -/
inductive CacheVal where
  | list : List StudentDto → CacheVal
  | one : StudentDto → CacheVal
deriving DecidableEq

/-- `value is IEnumerable<StudentDto>` on a stored typed payload. -/
def tcastList : CacheVal → Option (List StudentDto)
  | .list l => some l
  | .one _ => none

/-- `value is StudentDto` on a stored typed payload. -/
def tcastOne : CacheVal → Option StudentDto
  | .one s => some s
  | .list _ => none

/-- `MemoryCacheService` as the `ICacheService` behind `StudentService`.
`dList`/`dOne` are the `JsonSerializer.Deserialize` instantiations (total
with `JsonException` mapped to `none`); they are only consulted for raw
string payloads, which the service itself never stores.  None of these
operations throws. -/
def memCacheOps (dList : String → Option (List StudentDto))
    (dOne : String → Option StudentDto) : CacheOps (MemCache CacheVal) where
  getList cs k now := .ok (cs.getVal (objCast dList tcastList) k now, cs)
  getStudent cs k now := .ok (cs.getVal (objCast dOne tcastOne) k now, cs)
  setList cs k v ttl now := .ok (cs.set k (.typed (.list v)) ttl now)
  setStudent cs k v ttl now := .ok (cs.set k (.typed (.one v)) ttl now)
  removeKey cs k := .ok (cs.remove k)
  removeByPattern cs p := .ok (cs.removeByPattern p)

/-! ### Basic lemmas about the stores -/

section StoreLemmas

variable {α β : Type}

theorem lookupEntry_nil (k : String) : lookupEntry ([] : List (String × β)) k = none := rfl

theorem lookupEntry_cons (k : String) (v : β) (es : List (String × β)) (k' : String) :
    lookupEntry ((k, v) :: es) k' = if k = k' then some v else lookupEntry es k' := by
  by_cases h : k = k' <;> simp [lookupEntry, List.find?_cons, h]

theorem lookupEntry_filterKey (es : List (String × β)) (q : String → Bool) (k : String) :
    lookupEntry (es.filter (fun e => q e.1)) k =
      if q k then lookupEntry es k else none := by
  induction es with
  | nil => by_cases h : q k <;> simp [lookupEntry_nil, h]
  | cons e es ih =>
    obtain ⟨k0, v0⟩ := e
    by_cases hk : k0 = k
    · subst hk
      by_cases hq : q k0 <;> simp [List.filter_cons, hq, lookupEntry_cons, ih]
    · by_cases hq : q k0 <;> simp [List.filter_cons, hq, lookupEntry_cons, hk, ih]

theorem lookupEntry_filterNe (es : List (String × β)) (k k' : String) :
    lookupEntry (es.filter (fun e => e.1 != k)) k' =
      if k' = k then none else lookupEntry es k' := by
  have h := lookupEntry_filterKey es (fun s => s != k) k'
  by_cases hk : k' = k <;> simp [hk] at h ⊢ <;> exact h

/-- The key names occurring in a store. -/
def keysOf (es : List (String × β)) : List String := es.map (·.1)

theorem lookupEntry_eq_none (es : List (String × β)) (k : String)
    (h : k ∉ keysOf es) : lookupEntry es k = none := by
  induction es with
  | nil => rfl
  | cons e es ih =>
    obtain ⟨k0, v0⟩ := e
    simp [keysOf] at h
    simp [lookupEntry_cons, Ne.symm h.1, ih (by simpa [keysOf] using h.2)]

theorem lookupEntry_filterPair (es : List (String × β)) (q : String × β → Bool)
    (k : String) (h : (keysOf es).Nodup) :
    lookupEntry (es.filter q) k =
      (lookupEntry es k).bind (fun v => if q (k, v) then some v else none) := by
  induction es with
  | nil => rfl
  | cons e es ih =>
    obtain ⟨k0, v0⟩ := e
    simp [keysOf] at h
    by_cases hk : k0 = k
    · subst hk
      have hnone : lookupEntry es k0 = none :=
        lookupEntry_eq_none es k0 (by simpa [keysOf] using h.1)
      by_cases hq : q (k0, v0) <;>
        simp [List.filter_cons, hq, lookupEntry_cons, ih h.2, hnone]
    · by_cases hq : q (k0, v0) <;>
        simp [List.filter_cons, hq, lookupEntry_cons, hk, ih h.2]

theorem keysOf_filter_nodup (es : List (String × β)) (q : String × β → Bool)
    (h : (keysOf es).Nodup) : (keysOf (es.filter q)).Nodup := by
  unfold keysOf at h ⊢
  exact h.sublist ((List.filter_sublist es).map (fun e => e.1))

theorem contains_iff (l : List String) (a : String) :
    l.contains a = true ↔ a ∈ l := List.elem_iff

theorem contains_filter (l : List String) (f : String → Bool) (a : String) :
    (l.filter f).contains a = (l.contains a && f a) := by
  rw [Bool.eq_iff_iff, Bool.and_eq_true, contains_iff, contains_iff, List.mem_filter]

end StoreLemmas

section MemLemmas

variable {α : Type}

theorem MemCache.existsKey_iff (c : MemCache α) (k : String) :
    c.existsKey k = true ↔ k ∈ c.keyTracker :=
  contains_iff c.keyTracker k

theorem MemCache.lookup_set (c : MemCache α) (k : String) (v : ObjVal α)
    (ttl now : Time) (k' : String) :
    lookupEntry ((c.set k v ttl now).entries) k' =
      if k' = k then some ⟨v, now + ttl⟩ else lookupEntry c.entries k' := by
  by_cases h : k' = k <;>
    simp [MemCache.set, lookupEntry_cons, lookupEntry_filterNe, h, Ne.symm]

theorem MemCache.lookup_remove (c : MemCache α) (k k' : String) :
    lookupEntry ((c.remove k).entries) k' =
      if k' = k then none else lookupEntry c.entries k' := by
  simp [MemCache.remove, lookupEntry_filterNe]

theorem MemCache.mem_tracker_set (c : MemCache α) (k : String) (v : ObjVal α)
    (ttl now : Time) (k' : String) :
    k' ∈ (c.set k v ttl now).keyTracker ↔ k' = k ∨ k' ∈ c.keyTracker := by
  simp only [MemCache.set]
  by_cases h : c.keyTracker.contains k = true
  · rw [if_pos h]
    have hk := (contains_iff _ _).mp h
    constructor
    · exact fun hm => Or.inr hm
    · rintro (rfl | hm)
      exacts [hk, hm]
  · rw [if_neg h]
    simp [List.mem_cons]

theorem MemCache.mem_tracker_remove (c : MemCache α) (k k' : String) :
    k' ∈ (c.remove k).keyTracker ↔ k' ≠ k ∧ k' ∈ c.keyTracker := by
  simp [MemCache.remove, List.mem_filter, bne_iff_ne]
  tauto

theorem MemCache.mem_tracker_removeByPattern (c : MemCache α) (p k' : String) :
    k' ∈ (c.removeByPattern p).keyTracker ↔
      k' ∈ c.keyTracker ∧ memPatternMatch p k' = false := by
  simp [MemCache.removeByPattern, List.mem_filter, Bool.not_eq_true']

theorem MemCache.lookup_removeByPattern (c : MemCache α) (p k' : String) :
    lookupEntry ((c.removeByPattern p).entries) k' =
      if k' ∈ c.keyTracker ∧ memPatternMatch p k' = true then none
      else lookupEntry c.entries k' := by
  have hstep := lookupEntry_filterKey c.entries
    (fun s => !(c.keyTracker.filter (fun x => memPatternMatch p x)).contains s) k'
  have hcon : (c.keyTracker.filter (fun x => memPatternMatch p x)).contains k' = true
      ↔ (k' ∈ c.keyTracker ∧ memPatternMatch p k' = true) := by
    rw [contains_iff, List.mem_filter]
  rw [show (c.removeByPattern p).entries =
      c.entries.filter
        (fun e => !(c.keyTracker.filter (fun x => memPatternMatch p x)).contains e.1)
      from rfl, hstep]
  cases hX : (c.keyTracker.filter (fun x => memPatternMatch p x)).contains k' with
  | true =>
    have hp := hcon.mp hX
    simp [hX, hp]
  | false =>
    have hp : ¬(k' ∈ c.keyTracker ∧ memPatternMatch p k' = true) := by
      intro hp
      rw [hcon.mpr hp] at hX
      cases hX
    simp [hX, hp]

theorem MemCache.log_set (c : MemCache α) (k : String) (v : ObjVal α) (ttl now : Time) :
    (c.set k v ttl now).log = CacheEvt.setKey k :: c.log := rfl

theorem MemCache.log_remove (c : MemCache α) (k : String) :
    (c.remove k).log = CacheEvt.removeKey k :: c.log := rfl

theorem MemCache.log_removeByPattern (c : MemCache α) (p : String) :
    (c.removeByPattern p).log = CacheEvt.removePattern p :: c.log := rfl

end MemLemmas

section RedisLemmas

theorem RedisCache.redis_lookup_set (c : RedisCache) (k payload : String)
    (ttl now : Time) (k' : String) :
    lookupEntry ((c.set k payload ttl now).entries) k' =
      if k' = k then some (payload, now + ttl) else lookupEntry c.entries k' := by
  by_cases h : k' = k <;>
    simp [RedisCache.set, lookupEntry_cons, lookupEntry_filterNe, h, Ne.symm]

theorem RedisCache.redis_lookup_remove (c : RedisCache) (k k' : String) :
    lookupEntry ((c.remove k).entries) k' =
      if k' = k then none else lookupEntry c.entries k' := by
  simp [RedisCache.remove, lookupEntry_filterNe]

theorem RedisCache.redis_lookup_removeByPattern (c : RedisCache) (p : String) (now : Time)
    (k' : String) (h : (keysOf c.entries).Nodup) :
    lookupEntry ((c.removeByPattern p now).entries) k' =
      (lookupEntry c.entries k').bind
        (fun v => if redisPatternMatch p k' = true ∧ now < v.2 then none else some v) := by
  have hl := lookupEntry_filterPair c.entries
    (fun e => !(redisPatternMatch p e.1 && decide (now < e.2.2))) k' h
  rw [show (c.removeByPattern p now).entries =
      c.entries.filter (fun e => !(redisPatternMatch p e.1 && decide (now < e.2.2)))
      from rfl, hl]
  cases lookupEntry c.entries k' with
  | none => rfl
  | some v =>
    by_cases h1 : redisPatternMatch p k' = true <;> by_cases h2 : now < v.2 <;>
      simp [h1, h2]

end RedisLemmas

/-! ### Claim C5: pattern removal semantics -/

/-- C5 counterexample: the claim "removeByPattern deletes exactly the
currently-tracked keys matching the shell-glob-style pattern
case-insensitively, in both variants" is false at concrete inputs.  The
in-process sweep for `"a:*"` also deletes `"xa:1"`, a key the (anchored)
shell glob does not match, because `Regex.IsMatch` searches unanchored; and
the Redis sweep for `"a:*"` leaves `"A:1"` in place although the
case-insensitive glob matches it, because Redis glob matching is
case-sensitive. -/
theorem C5_counterexample :
    specPatternMatch "a:*" "xa:1" = false
    ∧ (((emptyMem Nat).set "xa:1" (.typed 1) 100 0).removeByPattern "a:*").existsKey
        "xa:1" = false
    ∧ lookupEntry
        ((((emptyMem Nat).set "xa:1" (.typed 1) 100 0).removeByPattern "a:*").entries)
        "xa:1" = none
    ∧ specPatternMatch "a:*" "A:1" = true
    ∧ ((emptyRedis.set "A:1" "v" 100 0).removeByPattern "a:*" 0).existsKey "A:1" 0
        = true := by
  refine ⟨by decide, by decide, by decide, by decide, by decide⟩

/-- C5 (amended): the in-process variant deletes exactly the tracked keys in
which the case-insensitive regex obtained from the pattern finds an
(unanchored) match; the shared variant deletes exactly the live keys fully
matching the glob case-sensitively; and on the spec's example keys `a:1`,
`a:2`, `b:1`, `removeByPattern "a:*"` leaves only `b:1` in both variants. -/
theorem C5_amended {α : Type} (c : MemCache α) (r : RedisCache) (pat k : String)
    (now : Time) (h : (keysOf r.entries).Nodup) :
    ((c.removeByPattern pat).existsKey k = (c.existsKey k && !memPatternMatch pat k))
    ∧ (lookupEntry ((c.removeByPattern pat).entries) k =
        if k ∈ c.keyTracker ∧ memPatternMatch pat k = true then none
        else lookupEntry c.entries k)
    ∧ (lookupEntry ((r.removeByPattern pat now).entries) k =
        (lookupEntry r.entries k).bind
          (fun v => if redisPatternMatch pat k = true ∧ now < v.2 then none else some v))
    ∧ (let m3 := (((emptyMem Nat).set "a:1" (.typed 1) 100 0).set "a:2" (.typed 2) 100 0).set
          "b:1" (.typed 3) 100 0
       ((m3.removeByPattern "a:*").existsKey "a:1" = false
        ∧ (m3.removeByPattern "a:*").existsKey "a:2" = false
        ∧ (m3.removeByPattern "a:*").existsKey "b:1" = true))
    ∧ (let r3 := ((emptyRedis.set "a:1" "1" 100 0).set "a:2" "2" 100 0).set "b:1" "3" 100 0
       ((r3.removeByPattern "a:*" 0).existsKey "a:1" 0 = false
        ∧ (r3.removeByPattern "a:*" 0).existsKey "a:2" 0 = false
        ∧ (r3.removeByPattern "a:*" 0).existsKey "b:1" 0 = true)) := by
  refine ⟨contains_filter _ _ _, MemCache.lookup_removeByPattern c pat k,
    RedisCache.redis_lookup_removeByPattern r pat now k h, ⟨by decide, by decide, by decide⟩,
    ⟨by decide, by decide, by decide⟩⟩

/-- C5 amended witness: the amended characterization evaluated at a concrete
store. -/
theorem C5_amended_witness :
    (keysOf (emptyRedis.set "a:1" "1" 100 0).entries).Nodup
    ∧ lookupEntry (((emptyRedis.set "a:1" "1" 100 0).removeByPattern "a:*" 0).entries)
        "a:1" = none :=
  ⟨by decide, by
    have h := (C5_amended (α := Nat) (emptyMem Nat) (emptyRedis.set "a:1" "1" 100 0)
      "a:*" "a:1" 0 (by decide)).2.2.1
    exact h.trans (by decide)⟩

/-! ### Claim C6: get contract, absence and corrupt payloads -/

/-- C6: in both variants `get` returns the stored value while present and
unexpired, and `none` (absence, not an error) otherwise — a present entry
read at or past its expiry gives `none`, an absent key gives `none`, and a
stored payload whose deserialization fails degrades to `none`. -/
theorem C6_get_present_absent_corrupt {α : Type}
    (c1 c2 c3 : MemCache α) (r1 r2 : RedisCache) (dec : String → Option α)
    (k cor p : String) (a : α) (e e2 e3 now : Time)
    (h1 : lookupEntry c1.entries k = some ⟨.typed a, e⟩)
    (h2 : lookupEntry c2.entries k = some ⟨.str cor, e2⟩) (hcor : dec cor = none)
    (h3 : lookupEntry c3.entries k = none)
    (h4 : lookupEntry r1.entries k = some (p, e3))
    (h5 : lookupEntry r2.entries k = none) :
    (c1.getVal (objCast dec some) k now = if now < e then some a else none)
    ∧ (c2.getVal (objCast dec some) k now = none)
    ∧ (c3.getVal (objCast dec some) k now = none)
    ∧ (r1.getVal dec k now = if now < e3 then dec p else none)
    ∧ (dec p = none → r1.getVal dec k now = none)
    ∧ (r2.getVal dec k now = none) := by
  refine ⟨?_, ?_, ?_, ?_, ?_, ?_⟩
  · by_cases hlt : now < e <;> simp [MemCache.getVal, h1, hlt, objCast]
  · by_cases hlt : now < e2 <;> simp [MemCache.getVal, h2, hlt, objCast, hcor]
  · simp [MemCache.getVal, h3]
  · by_cases hlt : now < e3 <;> simp [RedisCache.getVal, h4, hlt]
  · intro hp
    by_cases hlt : now < e3 <;> simp [RedisCache.getVal, h4, hlt, hp]
  · simp [RedisCache.getVal, h5]

/-- C6 witness: the get contract evaluated on a concrete store holding a
live typed entry, a corrupt string payload, and nothing else. -/
theorem C6_witness :
    lookupEntry (((emptyMem Nat).set "k" (.typed 7) 5 0).entries) "k"
        = some ⟨.typed 7, 5⟩
    ∧ lookupEntry (((emptyMem Nat).set "k" (.str "junk") 5 0).entries) "k"
        = some ⟨.str "junk", 5⟩
    ∧ natDecode "junk" = none
    ∧ lookupEntry ((emptyMem Nat).entries) "k" = none
    ∧ lookupEntry ((emptyRedis.set "k" "7" 5 0).entries) "k" = some ("7", 5)
    ∧ lookupEntry (emptyRedis.entries) "k" = none
    ∧ ((emptyMem Nat).set "k" (.typed 7) 5 0).getVal (objCast natDecode some) "k" 3
        = some 7 := by
  refine ⟨by decide, by decide, by decide, by decide, by decide, by decide, ?_⟩
  have h := (C6_get_present_absent_corrupt
    ((emptyMem Nat).set "k" (.typed 7) 5 0) ((emptyMem Nat).set "k" (.str "junk") 5 0)
    (emptyMem Nat) (emptyRedis.set "k" "7" 5 0) emptyRedis natDecode
    "k" "junk" "7" 7 5 5 5 3 (by decide) (by decide) (by decide) (by decide)
    (by decide) (by decide)).1
  exact h.trans (by decide)

/-! ### Claim C7: set semantics -/

/-- C7: in both variants `set key value ttl` stores the value under the key
with absolute expiry `now + ttl`, overwriting any existing entry for that
key (the last `set` wins); the entry is readable through `get` strictly
before its expiry and gone from expiry on. -/
theorem C7_set_expiry_overwrite {α : Type} (c : MemCache α) (r : RedisCache)
    (dec : String → Option α) (k : String) (a : α) (v v' : ObjVal α)
    (p p' : String) (ttl ttl' now now' t1 t2 : Time)
    (h1 : t1 < now + ttl) (h2 : now + ttl ≤ t2) :
    (lookupEntry ((c.set k v ttl now).entries) k = some ⟨v, now + ttl⟩)
    ∧ (lookupEntry ((r.set k p ttl now).entries) k = some (p, now + ttl))
    ∧ (lookupEntry (((c.set k v ttl now).set k v' ttl' now').entries) k
        = some ⟨v', now' + ttl'⟩)
    ∧ (lookupEntry (((r.set k p ttl now).set k p' ttl' now').entries) k
        = some (p', now' + ttl'))
    ∧ ((c.set k (.typed a) ttl now).getVal (objCast dec some) k t1 = some a)
    ∧ ((c.set k (.typed a) ttl now).getVal (objCast dec some) k t2 = none)
    ∧ ((r.set k p ttl now).getVal dec k t1 = dec p)
    ∧ ((r.set k p ttl now).getVal dec k t2 = none)
    ∧ ((r.set k p ttl now).existsKey k t1 = true)
    ∧ ((r.set k p ttl now).existsKey k t2 = false) := by
  have hm := MemCache.lookup_set c k v ttl now k
  have hm2 := MemCache.lookup_set (c.set k v ttl now) k v' ttl' now' k
  have hr := RedisCache.redis_lookup_set r k p ttl now k
  have hr2 := RedisCache.redis_lookup_set (r.set k p ttl now) k p' ttl' now' k
  have hma := MemCache.lookup_set c k (.typed a) ttl now k
  simp only [if_pos rfl] at hm hm2 hr hr2 hma
  have hnot : ¬ t2 < now + ttl := not_lt.mpr h2
  refine ⟨hm, hr, hm2, hr2, ?_, ?_, ?_, ?_, ?_, ?_⟩
  · simp [MemCache.getVal, hma, h1, objCast]
  · simp [MemCache.getVal, hma, hnot]
  · simp [RedisCache.getVal, hr, h1]
  · simp [RedisCache.getVal, hr, hnot]
  · simp [RedisCache.existsKey, hr, h1]
  · simp [RedisCache.existsKey, hr, hnot]

/-- C7 witness: the set contract at a concrete key, value, ttl of 4 set at
time 0, read back at times 3 and 4. -/
theorem C7_witness :
    (3 < 0 + 4) ∧ (0 + 4 ≤ 4)
    ∧ ((emptyMem Nat).set "k" (.typed 9) 4 0).getVal (objCast natDecode some) "k" 3
        = some 9
    ∧ ((emptyMem Nat).set "k" (.typed 9) 4 0).getVal (objCast natDecode some) "k" 4
        = none
    ∧ lookupEntry ((((emptyMem Nat).set "k" (.typed 9) 4 0).set "k" (.typed 8) 2 1).entries)
        "k" = some ⟨.typed 8, 1 + 2⟩ := by
  have h := C7_set_expiry_overwrite (emptyMem Nat) emptyRedis natDecode "k" 9
    (.typed 9) (.typed 8) "9" "8" 4 2 0 1 3 4 (by decide) (by decide)
  exact ⟨by decide, by decide, h.2.2.2.2.1, h.2.2.2.2.2.1, h.2.2.1⟩


/-! ### Claim C10: the plural sweep never matches a singular key -/

/-- Every character produced by `Nat.toDigitsCore 10` satisfies any property
that holds of the decimal digit characters and of the accumulator. -/
theorem toDigitsCore_chars (P : Char → Prop) (hd : ∀ m, m < 10 → P (Nat.digitChar m)) :
    ∀ (f n : Nat) (acc : List Char), (∀ c ∈ acc, P c) →
      ∀ c ∈ Nat.toDigitsCore 10 f n acc, P c := by
  intro f
  induction f with
  | zero =>
    intro n acc hacc c hc
    exact hacc c (by simpa [Nat.toDigitsCore] using hc)
  | succ f ih =>
    intro n acc hacc c hc
    have hacc' : ∀ x ∈ (Nat.digitChar (n % 10) :: acc), P x := by
      intro x hx
      rcases List.mem_cons.mp hx with rfl | hx
      · exact hd _ (Nat.mod_lt _ (by decide))
      · exact hacc x hx
    simp only [Nat.toDigitsCore] at hc
    split at hc
    · exact hacc' c hc
    · exact ih (n / 10) _ hacc' c hc

/-- No character of the decimal representation of a natural lowers to `s`. -/
theorem natRepr_toLower_ne (n : Nat) : ∀ c ∈ (Nat.repr n).data, c.toLower ≠ 's' := by
  intro c hc
  have hrepr : (Nat.repr n).data = Nat.toDigitsCore 10 (n + 1) n [] := rfl
  rw [hrepr] at hc
  refine toDigitsCore_chars (fun c => c.toLower ≠ 's') ?_ (n + 1) n [] (by simp) c hc
  intro m hm
  interval_cases m <;> decide

/-- No character of `toString` of an integer lowers to `s` (digits and the
minus sign only). -/
theorem intToString_toLower_ne (i : Int) : ∀ c ∈ (toString i).data, c.toLower ≠ 's' := by
  cases i with
  | ofNat n => exact natRepr_toLower_ne n
  | negSucc n =>
    intro c hc
    have hdata : (toString (Int.negSucc n)).data = '-' :: (Nat.repr (n + 1)).data := rfl
    rw [hdata] at hc
    rcases List.mem_cons.mp hc with rfl | hc
    · decide
    · exact natRepr_toLower_ne (n + 1) c hc

/-- The unanchored case-insensitive regex for `"students:*"` finds no match
inside a character list none of whose characters lowers to `s`. -/
theorem regexFind_students_none : ∀ (s : List Char), (∀ c ∈ s, c.toLower ≠ 's') →
    regexFind ("students:*".data) s = false := by
  intro s
  induction s with
  | nil => intro _; decide
  | cons d s ih =>
    intro hs
    have hd : d.toLower ≠ 's' := hs d (List.mem_cons_self d s)
    have ihs := ih (fun c hc => hs c (List.mem_cons_of_mem d hc))
    have hne : ('s'.toLower == d.toLower) = false := by
      have h1 : 's'.toLower = 's' := by decide
      rw [h1]
      exact beq_eq_false_iff_ne.mpr (Ne.symm hd)
    calc regexFind ("students:*".data) (d :: s)
        = (globFindCI ("students:*".data) (d :: s) || regexFind ("students:*".data) s) :=
          rfl
      _ = false := by
          rw [ihs,
            show globFindCI ("students:*".data) (d :: s)
              = (('s'.toLower == d.toLower)
                  && globFindCI ('t' :: 'u' :: 'd' :: 'e' :: 'n' :: 't' :: 's' :: ':' :: '*' ::[]) s)
              from rfl,
            hne]
          rfl

/-- Skipping the literal prefix of a singular key leaves the unanchored
search exactly on the id suffix (the first eight anchor positions all fail
on concrete characters). -/
theorem regexFind_students_skip (s : List Char) :
    regexFind ("students:*".data) ('s' :: 't' :: 'u' :: 'd' :: 'e' :: 'n' :: 't' :: ':' ::s)
      = regexFind ("students:*".data) s := rfl

/-- The anchored glob `students:*` rejects any key starting `student:` at
the eighth character, whatever follows. -/
theorem globMatch_students_skip (s : List Char) :
    globMatch ("students:*".data) ('s' :: 't' :: 'u' :: 'd' :: 'e' :: 'n' :: 't' :: ':' ::s) = false := rfl

/-- C10: for every student id the invalidation sweep pattern `"students:*"`
does not match the singular key `"student:<id>"` in either variant, so the
sweep leaves the single-record entry untouched (its removal is achieved
solely by the explicit single-key removal). -/
theorem C10_sweep_misses_single_key {α : Type} (id : Int) (c : MemCache α)
    (r : RedisCache) (now : Time) (h : (keysOf r.entries).Nodup) :
    memPatternMatch "students:*" (studentKey id) = false
    ∧ redisPatternMatch "students:*" (studentKey id) = false
    ∧ lookupEntry ((c.removeByPattern "students:*").entries) (studentKey id)
        = lookupEntry c.entries (studentKey id)
    ∧ (c.removeByPattern "students:*").existsKey (studentKey id)
        = c.existsKey (studentKey id)
    ∧ lookupEntry ((r.removeByPattern "students:*" now).entries) (studentKey id)
        = lookupEntry r.entries (studentKey id) := by
  have hdata : (studentKey id).data
      = 's' :: 't' :: 'u' :: 'd' :: 'e' :: 'n' :: 't' :: ':' ::(toString id).data := rfl
  have hmem : memPatternMatch "students:*" (studentKey id) = false := by
    rw [memPatternMatch, hdata, regexFind_students_skip]
    exact regexFind_students_none _ (intToString_toLower_ne id)
  have hred : redisPatternMatch "students:*" (studentKey id) = false := by
    rw [redisPatternMatch, hdata]
    exact globMatch_students_skip _
  refine ⟨hmem, hred, ?_, ?_, ?_⟩
  · rw [MemCache.lookup_removeByPattern, if_neg]
    intro hcontra
    rw [hmem] at hcontra
    exact Bool.false_ne_true hcontra.2
  · show (c.keyTracker.filter (fun k => !memPatternMatch "students:*" k)).contains
        (studentKey id) = c.keyTracker.contains (studentKey id)
    rw [contains_filter, hmem]
    simp
  · rw [RedisCache.redis_lookup_removeByPattern r "students:*" now (studentKey id) h]
    cases lookupEntry r.entries (studentKey id) with
    | none => rfl
    | some v => simp [hred]

/-- C10 witness: the sweep at id 11 over concrete stores holding the
singular key. -/
theorem C10_witness :
    (keysOf (emptyRedis.set "student:11" "x" 100 0).entries).Nodup
    ∧ memPatternMatch "students:*" (studentKey 11) = false
    ∧ lookupEntry
        (((((emptyMem Nat).set "student:11" (.typed 1) 100 0).removeByPattern
          "students:*")).entries) "student:11" = some ⟨.typed 1, 100⟩ := by
  refine ⟨by decide, (C10_sweep_misses_single_key 11 (emptyMem Nat)
    (emptyRedis.set "student:11" "x" 100 0) 0 (by decide)).1, ?_⟩
  have h := (C10_sweep_misses_single_key 11
    ((emptyMem Nat).set "student:11" (.typed 1) 100 0)
    (emptyRedis.set "student:11" "x" 100 0) 0 (by decide)).2.2.1
  have hk : studentKey 11 = "student:11" := by decide
  rw [hk] at h
  exact h.trans (by decide)

/-! ### Computation lemmas: the service over the in-process cache -/

section ServiceComputation

variable (dL : String → Option (List StudentDto)) (dO : String → Option StudentDto)
variable (cs : MemCache CacheVal) (db : Db) (now : Time)

theorem getAll_mem_hit (l : List StudentDto)
    (h : cs.getVal (objCast dL tcastList) allKey now = some l) :
    getAllStudents (memCacheOps dL dO) cs db now = .ok (l, cs, db) := by
  simp [getAllStudents, memCacheOps, h]

theorem getAll_mem_miss
    (h : cs.getVal (objCast dL tcastList) allKey now = none) :
    getAllStudents (memCacheOps dL dO) cs db now
      = .ok (db.students.map toDto,
             cs.set allKey (.typed (.list (db.students.map toDto))) 5 now,
             { db with calls := db.calls + 1 }) := by
  simp [getAllStudents, memCacheOps, h, Db.queryAllDtos]

theorem getById_mem_hit (id : Int) (d : StudentDto)
    (h : cs.getVal (objCast dO tcastOne) (studentKey id) now = some d) :
    getStudentById (memCacheOps dL dO) cs db id now = .ok (some d, cs, db) := by
  simp [getStudentById, memCacheOps, h]

theorem getById_mem_miss_found (id : Int) (ex : Student)
    (h : cs.getVal (objCast dO tcastOne) (studentKey id) now = none)
    (hf : db.students.find? (fun t => t.studentId == id) = some ex) :
    getStudentById (memCacheOps dL dO) cs db id now
      = .ok (some (toDto ex),
             cs.set (studentKey id) (.typed (.one (toDto ex))) 10 now,
             { db with calls := db.calls + 1 }) := by
  simp [getStudentById, memCacheOps, h, Db.findById, hf]

theorem getById_mem_miss_absent (id : Int)
    (h : cs.getVal (objCast dO tcastOne) (studentKey id) now = none)
    (hf : db.students.find? (fun t => t.studentId == id) = none) :
    getStudentById (memCacheOps dL dO) cs db id now
      = .ok (none, cs, { db with calls := db.calls + 1 }) := by
  simp [getStudentById, memCacheOps, h, Db.findById, hf]

theorem create_mem (s : Student) :
    createStudent (memCacheOps dL dO) cs db s
      = .ok (toDto ((db.insertStudent s).1),
             ((cs.remove (studentKey db.nextId)).remove allKey).removeByPattern
               "students:*",
             (db.insertStudent s).2) := by
  simp [createStudent, invalidateStudentCache, memCacheOps, Db.insertStudent]

theorem update_mem_found (id : Int) (s ex : Student)
    (hf : db.students.find? (fun t => t.studentId == id) = some ex) :
    updateStudent (memCacheOps dL dO) cs db id s
      = .ok (some ⟨ex.studentId, s.fullName, s.birthDate, s.averageGrade, s.isActive⟩,
             ((cs.remove (studentKey id)).remove allKey).removeByPattern "students:*",
             ({ db with calls := db.calls + 1 }).saveUpdated id s) := by
  simp [updateStudent, invalidateStudentCache, memCacheOps, Db.findById, hf, toDto]

theorem update_mem_absent (id : Int) (s : Student)
    (hf : db.students.find? (fun t => t.studentId == id) = none) :
    updateStudent (memCacheOps dL dO) cs db id s
      = .ok (none, cs, { db with calls := db.calls + 1 }) := by
  simp [updateStudent, memCacheOps, Db.findById, hf]

theorem delete_mem_found (id : Int) (ex : Student)
    (hf : db.students.find? (fun t => t.studentId == id) = some ex) :
    deleteStudent (memCacheOps dL dO) cs db id
      = .ok (true,
             ((cs.remove (studentKey id)).remove allKey).removeByPattern "students:*",
             ({ db with calls := db.calls + 1 }).deleteById id) := by
  simp [deleteStudent, invalidateStudentCache, memCacheOps, Db.findById, hf]

theorem delete_mem_absent (id : Int)
    (hf : db.students.find? (fun t => t.studentId == id) = none) :
    deleteStudent (memCacheOps dL dO) cs db id
      = .ok (false, cs, { db with calls := db.calls + 1 }) := by
  simp [deleteStudent, memCacheOps, Db.findById, hf]

end ServiceComputation

/-- Run the same read `n + 1` times, threading cache and store state (the
spec's "N rapid repeated reads"); yields the last read's result. -/
def iterRead {σ ρ : Type} (step : σ → Db → Except Unit (ρ × σ × Db)) :
    Nat → σ → Db → Except Unit (ρ × σ × Db)
  | 0, cs, db => step cs db
  | n + 1, cs, db =>
    match step cs db with
    | .error e => .error e
    | .ok (_, cs', db') => iterRead step n cs' db'

theorem iterRead_fixed {σ ρ : Type} (step : σ → Db → Except Unit (ρ × σ × Db))
    (csP : σ) (l : ρ) (hfix : ∀ dbX, step csP dbX = .ok (l, csP, dbX)) :
    ∀ (n : Nat) (dbX : Db), iterRead step n csP dbX = .ok (l, csP, dbX) := by
  intro n
  induction n with
  | zero => intro dbX; exact hfix dbX
  | succ n ih =>
    intro dbX
    simp [iterRead, hfix dbX, ih dbX]

/-! ### Claim C3: read-through population and single persistence call -/

/-- C3: with nothing cached, `listAll` queries persistence once, caches the
DTO projection of the whole table under `"students:all"` with absolute
expiry `now + 5` minutes, and returns it; `getById` likewise caches the
single DTO under `"student:<id>"` with expiry `now + 10`; across `n + 1`
rapid repeated `listAll` reads persistence is hit exactly once, and an
immediate second `getById` is served from cache with no persistence call. -/
theorem C3_read_through (dL : String → Option (List StudentDto))
    (dO : String → Option StudentDto) (cs : MemCache CacheVal) (db : Db)
    (id : Int) (ex : Student) (now : Time) (n : Nat)
    (hAll : lookupEntry cs.entries allKey = none)
    (hOne : lookupEntry cs.entries (studentKey id) = none)
    (hFound : db.students.find? (fun t => t.studentId == id) = some ex) :
    (getAllStudents (memCacheOps dL dO) cs db now
      = .ok (db.students.map toDto,
             cs.set allKey (.typed (.list (db.students.map toDto))) 5 now,
             { db with calls := db.calls + 1 }))
    ∧ (lookupEntry
        ((cs.set allKey (.typed (.list (db.students.map toDto))) 5 now).entries) allKey
        = some ⟨.typed (.list (db.students.map toDto)), now + 5⟩)
    ∧ (iterRead (fun c d => getAllStudents (memCacheOps dL dO) c d now) n cs db
        = .ok (db.students.map toDto,
               cs.set allKey (.typed (.list (db.students.map toDto))) 5 now,
               { db with calls := db.calls + 1 }))
    ∧ (getStudentById (memCacheOps dL dO) cs db id now
      = .ok (some (toDto ex),
             cs.set (studentKey id) (.typed (.one (toDto ex))) 10 now,
             { db with calls := db.calls + 1 }))
    ∧ (lookupEntry
        ((cs.set (studentKey id) (.typed (.one (toDto ex))) 10 now).entries)
        (studentKey id) = some ⟨.typed (.one (toDto ex)), now + 10⟩)
    ∧ (∀ dbX, getStudentById (memCacheOps dL dO)
        (cs.set (studentKey id) (.typed (.one (toDto ex))) 10 now) dbX id now
        = .ok (some (toDto ex),
               cs.set (studentKey id) (.typed (.one (toDto ex))) 10 now, dbX)) := by
  have hAllVal : cs.getVal (objCast dL tcastList) allKey now = none := by
    simp [MemCache.getVal, hAll]
  have hOneVal : cs.getVal (objCast dO tcastOne) (studentKey id) now = none := by
    simp [MemCache.getVal, hOne]
  have hfirst := getAll_mem_miss dL dO cs db now hAllVal
  have hPopAll : lookupEntry
      ((cs.set allKey (.typed (.list (db.students.map toDto))) 5 now).entries) allKey
      = some ⟨.typed (.list (db.students.map toDto)), now + 5⟩ := by
    rw [MemCache.lookup_set, if_pos rfl]
  have hPopOne : lookupEntry
      ((cs.set (studentKey id) (.typed (.one (toDto ex))) 10 now).entries)
      (studentKey id) = some ⟨.typed (.one (toDto ex)), now + 10⟩ := by
    rw [MemCache.lookup_set, if_pos rfl]
  have hHitAll : ∀ dbX, getAllStudents (memCacheOps dL dO)
      (cs.set allKey (.typed (.list (db.students.map toDto))) 5 now) dbX now
      = .ok (db.students.map toDto,
             cs.set allKey (.typed (.list (db.students.map toDto))) 5 now, dbX) := by
    intro dbX
    refine getAll_mem_hit dL dO _ dbX now _ ?_
    simp [MemCache.getVal, hPopAll, tcastList, objCast, Nat.lt_add_of_pos_right]
  have hHitOne : ∀ dbX, getStudentById (memCacheOps dL dO)
      (cs.set (studentKey id) (.typed (.one (toDto ex))) 10 now) dbX id now
      = .ok (some (toDto ex),
             cs.set (studentKey id) (.typed (.one (toDto ex))) 10 now, dbX) := by
    intro dbX
    refine getById_mem_hit dL dO _ dbX now id _ ?_
    simp [MemCache.getVal, hPopOne, tcastOne, objCast, Nat.lt_add_of_pos_right]
  refine ⟨hfirst, hPopAll, ?_, getById_mem_miss_found dL dO cs db now id ex hOneVal hFound,
    hPopOne, hHitOne⟩
  cases n with
  | zero => exact hfirst
  | succ n =>
    show iterRead _ (n + 1) cs db = _
    rw [iterRead, hfirst]
    exact iterRead_fixed _ _ _ hHitAll n _

/-- C3 witness: a one-student store, nothing cached, three rapid reads. -/
theorem C3_witness :
    (lookupEntry ((emptyMem CacheVal).entries) allKey = none)
    ∧ (lookupEntry ((emptyMem CacheVal).entries) (studentKey 1) = none)
    ∧ ((Db.mk [⟨1, "Ada", 0, 99, true⟩] 2 0).students.find?
        (fun t => t.studentId == 1) = some ⟨1, "Ada", 0, 99, true⟩)
    ∧ (iterRead (fun c d => getAllStudents (memCacheOps (fun _ => none) (fun _ => none))
          c d 0) 2 (emptyMem CacheVal) (Db.mk [⟨1, "Ada", 0, 99, true⟩] 2 0)
        = .ok ([⟨1, "Ada", 0, 99, true⟩],
               (emptyMem CacheVal).set allKey
                 (.typed (.list [⟨1, "Ada", 0, 99, true⟩])) 5 0,
               Db.mk [⟨1, "Ada", 0, 99, true⟩] 2 1)) := by
  refine ⟨by decide, by decide, by decide, ?_⟩
  have h := (C3_read_through (fun _ => none) (fun _ => none) (emptyMem CacheVal)
    (Db.mk [⟨1, "Ada", 0, 99, true⟩] 2 0) 1 ⟨1, "Ada", 0, 99, true⟩ 0 2
    (by decide) (by decide) (by decide)).2.2.1
  exact h.trans (by decide)

/-! ### Claim C4: ids absent from persistence leave the cache untouched -/

/-- C4: for an id absent from persistence (and, for the read, not stale in
the cache), `getById` returns nothing and does not populate the cache, and
`update`/`delete` return their not-found results without invalidating: in
all three cases the cache state is returned exactly as it was. -/
theorem C4_absent_id_cache_untouched (dL : String → Option (List StudentDto))
    (dO : String → Option StudentDto) (cs : MemCache CacheVal) (db : Db)
    (id : Int) (s : Student) (now : Time)
    (hAbsent : db.students.find? (fun t => t.studentId == id) = none)
    (hNoCache : lookupEntry cs.entries (studentKey id) = none) :
    (getStudentById (memCacheOps dL dO) cs db id now
      = .ok (none, cs, { db with calls := db.calls + 1 }))
    ∧ (updateStudent (memCacheOps dL dO) cs db id s
      = .ok (none, cs, { db with calls := db.calls + 1 }))
    ∧ (deleteStudent (memCacheOps dL dO) cs db id
      = .ok (false, cs, { db with calls := db.calls + 1 })) := by
  have hOneVal : cs.getVal (objCast dO tcastOne) (studentKey id) now = none := by
    simp [MemCache.getVal, hNoCache]
  exact ⟨getById_mem_miss_absent dL dO cs db now id hOneVal hAbsent,
    update_mem_absent dL dO cs db id s hAbsent,
    delete_mem_absent dL dO cs db id hAbsent⟩

/-- C4 witness: id 5 absent from a one-student store and from the cache. -/
theorem C4_witness :
    ((Db.mk [⟨1, "Ada", 0, 99, true⟩] 2 0).students.find?
        (fun t => t.studentId == 5) = none)
    ∧ (lookupEntry ((emptyMem CacheVal).entries) (studentKey 5) = none)
    ∧ (deleteStudent (memCacheOps (fun _ => none) (fun _ => none)) (emptyMem CacheVal)
        (Db.mk [⟨1, "Ada", 0, 99, true⟩] 2 0) 5
      = .ok (false, emptyMem CacheVal, Db.mk [⟨1, "Ada", 0, 99, true⟩] 2 1)) := by
  refine ⟨by decide, by decide, ?_⟩
  have h := (C4_absent_id_cache_untouched (fun _ => none) (fun _ => none)
    (emptyMem CacheVal) (Db.mk [⟨1, "Ada", 0, 99, true⟩] 2 0) 5
    ⟨0, "x", 0, 0, true⟩ 0 (by decide) (by decide)).2.2
  exact h.trans (by decide)

/-! ### Claim C1: every successful mutation invalidates, in order -/

theorem studentKey_ne_allKey (id : Int) : studentKey id ≠ allKey := by
  intro h
  have h2 : (studentKey id).data = allKey.data := congrArg String.data h
  rw [show (studentKey id).data
        = 's' :: 't' :: 'u' :: 'd' :: 'e' :: 'n' :: 't' :: ':' ::(toString id).data from rfl,
      show allKey.data = 's' :: 't' :: 'u' :: 'd' :: 'e' :: 'n' :: 't' :: 's' :: ':' :: 'a' :: 'l' :: 'l' ::[]
        from rfl] at h2
  simp at h2

/-- C1: each successful mutation (create, update, delete) returns with the
cache state produced by removing the specific key, then the collection key,
then sweeping `"students:*"` — the mutation log records exactly these three
removals in that order — and in that state both `"student:<id>"` and
`"students:all"` are absent (lookup and exists), so the next `listAll`
misses and re-queries persistence. -/
theorem C1_mutations_invalidate (dL : String → Option (List StudentDto))
    (dO : String → Option StudentDto) (cs : MemCache CacheVal) (db : Db)
    (s : Student) (idU idD : Int) (exU exD : Student)
    (hU : db.students.find? (fun t => t.studentId == idU) = some exU)
    (hD : db.students.find? (fun t => t.studentId == idD) = some exD) :
    (createStudent (memCacheOps dL dO) cs db s
      = .ok (toDto ((db.insertStudent s).1),
             ((cs.remove (studentKey db.nextId)).remove allKey).removeByPattern
               "students:*",
             (db.insertStudent s).2))
    ∧ (updateStudent (memCacheOps dL dO) cs db idU s
      = .ok (some ⟨exU.studentId, s.fullName, s.birthDate, s.averageGrade, s.isActive⟩,
             ((cs.remove (studentKey idU)).remove allKey).removeByPattern "students:*",
             ({ db with calls := db.calls + 1 }).saveUpdated idU s))
    ∧ (deleteStudent (memCacheOps dL dO) cs db idD
      = .ok (true,
             ((cs.remove (studentKey idD)).remove allKey).removeByPattern "students:*",
             ({ db with calls := db.calls + 1 }).deleteById idD))
    ∧ (∀ (id : Int),
        ((((cs.remove (studentKey id)).remove allKey).removeByPattern "students:*").log
          = CacheEvt.removePattern "students:*" :: CacheEvt.removeKey allKey
              :: CacheEvt.removeKey (studentKey id) :: cs.log)
        ∧ (lookupEntry
            ((((cs.remove (studentKey id)).remove allKey).removeByPattern
              "students:*").entries) (studentKey id) = none)
        ∧ (lookupEntry
            ((((cs.remove (studentKey id)).remove allKey).removeByPattern
              "students:*").entries) allKey = none)
        ∧ ((((cs.remove (studentKey id)).remove allKey).removeByPattern
              "students:*").existsKey (studentKey id) = false)
        ∧ ((((cs.remove (studentKey id)).remove allKey).removeByPattern
              "students:*").existsKey allKey = false)
        ∧ (∀ (dbX : Db) (t : Time),
            getAllStudents (memCacheOps dL dO)
              (((cs.remove (studentKey id)).remove allKey).removeByPattern "students:*")
              dbX t
            = .ok (dbX.students.map toDto,
                   (((cs.remove (studentKey id)).remove allKey).removeByPattern
                     "students:*").set allKey
                     (.typed (.list (dbX.students.map toDto))) 5 t,
                   { dbX with calls := dbX.calls + 1 }))) := by
  refine ⟨create_mem dL dO cs db s, update_mem_found dL dO cs db idU s exU hU,
    delete_mem_found dL dO cs db idD exD hD, ?_⟩
  intro id
  have hlook1 : lookupEntry
      ((((cs.remove (studentKey id)).remove allKey).removeByPattern
        "students:*").entries) (studentKey id) = none := by
    rw [MemCache.lookup_removeByPattern]
    by_cases hc : studentKey id
        ∈ (((cs.remove (studentKey id)).remove allKey)).keyTracker
        ∧ memPatternMatch "students:*" (studentKey id) = true
    · rw [if_pos hc]
    · rw [if_neg hc, MemCache.lookup_remove, if_neg (studentKey_ne_allKey id),
        MemCache.lookup_remove, if_pos rfl]
  have hlook2 : lookupEntry
      ((((cs.remove (studentKey id)).remove allKey).removeByPattern
        "students:*").entries) allKey = none := by
    rw [MemCache.lookup_removeByPattern]
    by_cases hc : allKey ∈ (((cs.remove (studentKey id)).remove allKey)).keyTracker
        ∧ memPatternMatch "students:*" allKey = true
    · rw [if_pos hc]
    · rw [if_neg hc, MemCache.lookup_remove, if_pos rfl]
  have hex1 : ((((cs.remove (studentKey id)).remove allKey).removeByPattern
      "students:*").existsKey (studentKey id) = false) := by
    rw [Bool.eq_false_iff]
    intro hco
    rw [MemCache.existsKey_iff, MemCache.mem_tracker_removeByPattern,
      MemCache.mem_tracker_remove, MemCache.mem_tracker_remove] at hco
    exact hco.1.2.1 rfl
  have hex2 : ((((cs.remove (studentKey id)).remove allKey).removeByPattern
      "students:*").existsKey allKey = false) := by
    rw [Bool.eq_false_iff]
    intro hco
    rw [MemCache.existsKey_iff, MemCache.mem_tracker_removeByPattern,
      MemCache.mem_tracker_remove] at hco
    exact hco.1.1 rfl
  refine ⟨rfl, hlook1, hlook2, hex1, hex2, ?_⟩
  intro dbX t
  refine getAll_mem_miss dL dO _ dbX t ?_
  simp [MemCache.getVal, hlook2]

/-- C1 witness: a concrete delete of student 1 followed by the next listAll
hitting persistence again. -/
theorem C1_witness :
    ((Db.mk [⟨1, "Ada", 0, 99, true⟩] 2 0).students.find?
        (fun t => t.studentId == 1) = some ⟨1, "Ada", 0, 99, true⟩)
    ∧ (deleteStudent (memCacheOps (fun _ => none) (fun _ => none)) (emptyMem CacheVal)
        (Db.mk [⟨1, "Ada", 0, 99, true⟩] 2 0) 1
      = .ok (true,
             (((emptyMem CacheVal).remove (studentKey 1)).remove allKey).removeByPattern
               "students:*",
             Db.mk [] 2 2))
    ∧ (((((emptyMem CacheVal).remove (studentKey 1)).remove allKey).removeByPattern
          "students:*").log
        = [CacheEvt.removePattern "students:*", CacheEvt.removeKey allKey,
           CacheEvt.removeKey (studentKey 1)]) := by
  have h := C1_mutations_invalidate (fun _ => none) (fun _ => none) (emptyMem CacheVal)
    (Db.mk [⟨1, "Ada", 0, 99, true⟩] 2 0) ⟨0, "x", 0, 0, true⟩ 1 1
    ⟨1, "Ada", 0, 99, true⟩ ⟨1, "Ada", 0, 99, true⟩ (by decide) (by decide)
  refine ⟨by decide, h.2.2.1.trans (by decide), ?_⟩
  exact ((h.2.2.2 1).1).trans (by decide)

/-! ### Claim C8: `exists` and the key-tracking set -/

theorem lookupEntry_of_mem_nodup {β : Type} (es : List (String × β))
    (h : (keysOf es).Nodup) (e : String × β) (he : e ∈ es) :
    lookupEntry es e.1 = some e.2 := by
  induction es with
  | nil => cases he
  | cons e0 es ih =>
    obtain ⟨k0, v0⟩ := e0
    have h' := List.nodup_cons.mp (show (k0 :: keysOf es).Nodup from h)
    rcases List.mem_cons.mp he with rfl | he
    · rw [lookupEntry_cons, if_pos rfl]
    · have hne : k0 ≠ e.1 := by
        intro hk
        apply h'.1
        rw [hk]
        exact List.mem_map_of_mem (·.1) he
      rw [lookupEntry_cons, if_neg hne]
      exact ih h'.2 he

theorem mem_of_lookupEntry {β : Type} (es : List (String × β)) (k : String) (v : β)
    (h : lookupEntry es k = some v) : (k, v) ∈ es := by
  unfold lookupEntry at h
  cases hf : es.find? (fun e => e.1 == k) with
  | none => rw [hf] at h; cases h
  | some e =>
    rw [hf] at h
    have hm := List.mem_of_find?_eq_some hf
    have hp := List.find?_some hf
    obtain ⟨ke, ve⟩ := e
    simp at h hp
    cases hp
    cases h
    exact hm

/-- The state of the in-process cache service as seen through what the code
can do to it: the four `MemoryCacheService` mutators plus the runtime's
eviction of expired entries. -/
inductive MemOp (α : Type) where
  | setOp (k : String) (v : ObjVal α) (ttl now : Time)
  | removeOp (k : String)
  | removePatternOp (p : String)
  | purgeOp (now : Time)

def applyMemOp {α : Type} (c : MemCache α) : MemOp α → MemCache α
  | .setOp k v ttl now => c.set k v ttl now
  | .removeOp k => c.remove k
  | .removePatternOp p => c.removeByPattern p
  | .purgeOp now => c.purge now

def runMemOps {α : Type} (c : MemCache α) (ops : List (MemOp α)) : MemCache α :=
  ops.foldl applyMemOp c

/-- Well-formedness plus the `_keyTracker` consistency invariant: the store
holds no duplicate keys, and a key is tracked iff an entry for it is in the
backing store. -/
def TrackerInv {α : Type} (c : MemCache α) : Prop :=
  (keysOf c.entries).Nodup
  ∧ ∀ k, k ∈ c.keyTracker ↔ (lookupEntry c.entries k).isSome

theorem keysOf_set_nodup {α : Type} (c : MemCache α) (k : String) (v : ObjVal α)
    (ttl now : Time) (h : (keysOf c.entries).Nodup) :
    (keysOf ((c.set k v ttl now).entries)).Nodup := by
  show (keysOf ((k, ⟨v, now + ttl⟩) :: c.entries.filter (fun e => e.1 != k))).Nodup
  rw [show keysOf ((k, (⟨v, now + ttl⟩ : MemEntry α)) :: c.entries.filter
      (fun e => e.1 != k)) = k :: keysOf (c.entries.filter (fun e => e.1 != k)) from rfl]
  refine List.nodup_cons.mpr ⟨?_, keysOf_filter_nodup _ _ h⟩
  intro hk
  simp only [keysOf, List.mem_map] at hk
  obtain ⟨e, he, hek⟩ := hk
  have := List.of_mem_filter he
  rw [hek] at this
  exact (bne_iff_ne.mp this) rfl

theorem lookup_purge {α : Type} (c : MemCache α) (now : Time) (k : String)
    (h : (keysOf c.entries).Nodup) :
    lookupEntry ((c.purge now).entries) k =
      (lookupEntry c.entries k).bind
        (fun e => if now < e.expiry then some e else none) := by
  have hl := lookupEntry_filterPair c.entries (fun e => decide (now < e.2.expiry)) k h
  rw [show (c.purge now).entries = c.entries.filter (fun e => decide (now < e.2.expiry))
      from rfl, hl]
  cases lookupEntry c.entries k with
  | none => rfl
  | some e => by_cases hq : now < e.expiry <;> simp [hq]

theorem mem_tracker_purge {α : Type} (c : MemCache α) (now : Time) (k : String)
    (h : (keysOf c.entries).Nodup) :
    k ∈ (c.purge now).keyTracker ↔
      k ∈ c.keyTracker
      ∧ ¬ ∃ ent, lookupEntry c.entries k = some ent ∧ ent.expiry ≤ now := by
  show k ∈ c.keyTracker.filter
      (fun x => !((c.entries.filter (fun e => decide (e.2.expiry ≤ now))).map (·.1)).contains x)
    ↔ _
  rw [List.mem_filter]
  constructor
  · rintro ⟨hmem, hdead⟩
    refine ⟨hmem, ?_⟩
    rintro ⟨ent, hent, hexp⟩
    have hin : (k, ent) ∈ c.entries.filter (fun e => decide (e.2.expiry ≤ now)) :=
      List.mem_filter.mpr ⟨mem_of_lookupEntry _ _ _ hent, by simpa using hexp⟩
    have : k ∈ (c.entries.filter (fun e => decide (e.2.expiry ≤ now))).map (·.1) :=
      List.mem_map_of_mem (·.1) hin
    rw [(contains_iff _ _).mpr this] at hdead
    cases hdead
  · rintro ⟨hmem, hlive⟩
    refine ⟨hmem, ?_⟩
    rw [Bool.not_eq_eq_eq_not, Bool.not_true, ← Bool.not_eq_true, contains_iff]
    intro hk
    simp only [List.mem_map] at hk
    obtain ⟨e, he, hek⟩ := hk
    have hef := List.of_mem_filter he
    have hee := List.mem_of_mem_filter he
    refine hlive ⟨e.2, ?_, by simpa using hef⟩
    rw [← hek]
    exact lookupEntry_of_mem_nodup _ h e hee

theorem trackerInv_apply {α : Type} (c : MemCache α) (op : MemOp α)
    (h : TrackerInv c) : TrackerInv (applyMemOp c op) := by
  obtain ⟨hwf, hinv⟩ := h
  cases op with
  | setOp k v ttl now =>
    refine ⟨keysOf_set_nodup c k v ttl now hwf, ?_⟩
    intro k'
    rw [applyMemOp, MemCache.mem_tracker_set, MemCache.lookup_set]
    by_cases hk : k' = k <;> simp [hk, hinv k']
  | removeOp k =>
    refine ⟨keysOf_filter_nodup _ _ hwf, ?_⟩
    intro k'
    rw [applyMemOp, MemCache.mem_tracker_remove, MemCache.lookup_remove]
    by_cases hk : k' = k <;> simp [hk, hinv k']
  | removePatternOp p =>
    refine ⟨keysOf_filter_nodup _ _ hwf, ?_⟩
    intro k'
    rw [applyMemOp, MemCache.mem_tracker_removeByPattern,
      MemCache.lookup_removeByPattern]
    by_cases hp : memPatternMatch p k' = true
    · by_cases ht : k' ∈ c.keyTracker
      · simp [hp, ht]
      · have : lookupEntry c.entries k' = none := by
          cases hl : lookupEntry c.entries k' with
          | none => rfl
          | some v => exact absurd ((hinv k').mpr (by simp [hl])) ht
        simp [hp, ht, this]
    · simp [hp, hinv k']
  | purgeOp now =>
    refine ⟨keysOf_filter_nodup _ _ hwf, ?_⟩
    intro k'
    rw [applyMemOp, mem_tracker_purge c now k' hwf, lookup_purge c now k' hwf]
    cases hl : lookupEntry c.entries k' with
    | none => simp [hinv k', hl]
    | some ent =>
      by_cases he : now < ent.expiry
      · simp [hinv k', hl, he, Nat.not_le.mpr he]
      · simp [hinv k', hl, he, Nat.not_lt.mp he]

theorem trackerInv_foldl {α : Type} (ops : List (MemOp α)) :
    ∀ (c : MemCache α), TrackerInv c → TrackerInv (ops.foldl applyMemOp c) := by
  induction ops with
  | nil => exact fun c h => h
  | cons op ops ih => exact fun c h => ih _ (trackerInv_apply c op h)

theorem trackerInv_run {α : Type} (ops : List (MemOp α)) :
    TrackerInv (runMemOps (emptyMem α) ops) := by
  have hbase : TrackerInv (emptyMem α) := by
    constructor
    · exact List.nodup_nil
    · intro k
      simp [emptyMem, lookupEntry]
  rw [runMemOps]
  exact trackerInv_foldl ops _ hbase

/-- C8: in every state of the in-process cache reachable by set / remove /
pattern removal / runtime eviction, the tracking set agrees with the store
(a key is tracked iff an entry for it is stored), and — once the eviction
callbacks for entries that expired by `now` have run — `exists key` returns
true iff a non-expired entry for the key is currently present. -/
theorem C8_exists_iff_live_entry {α : Type} (ops : List (MemOp α)) (k : String)
    (now : Time) :
    (∀ k', k' ∈ (runMemOps (emptyMem α) ops).keyTracker
        ↔ (lookupEntry (runMemOps (emptyMem α) ops).entries k').isSome)
    ∧ (((runMemOps (emptyMem α) ops).purge now).existsKey k = true
        ↔ ∃ ent, lookupEntry (runMemOps (emptyMem α) ops).entries k = some ent
            ∧ now < ent.expiry) := by
  obtain ⟨hwf, hinv⟩ := trackerInv_run (α := α) ops
  refine ⟨hinv, ?_⟩
  rw [MemCache.existsKey_iff,
    mem_tracker_purge (runMemOps (emptyMem α) ops) now k hwf]
  cases hl : lookupEntry (runMemOps (emptyMem α) ops).entries k with
  | none => simp [hinv k, hl]
  | some ent =>
    by_cases he : now < ent.expiry
    · simp [hinv k, hl, he, Nat.not_le.mpr he]
    · simp [hinv k, hl, he, Nat.not_lt.mp he]

/-- C8 witness: after setting a key with ttl 5 at time 0 and flushing at
time 3 the key exists; the stored entry is live at 3. -/
theorem C8_witness :
    ((runMemOps (emptyMem Nat) [.setOp "k" (.typed 1) 5 0]).purge 3).existsKey "k" = true
    ∧ lookupEntry ((runMemOps (emptyMem Nat) [.setOp "k" (.typed 1) 5 0]).entries) "k"
        = some ⟨.typed 1, 5⟩ := by
  refine ⟨?_, by decide⟩
  exact (C8_exists_iff_live_entry [.setOp "k" (.typed 1) 5 0] "k" 3).2.mpr
    ⟨⟨.typed 1, 5⟩, by decide, by decide⟩

/-! ### Claim C2: cache-error locality -/

/-- A cache backend whose every operation throws (`CacheUnavailable` on each
call): the situation the spec describes as "logged, silently degraded". -/
def throwingCacheOps : CacheOps Unit where
  getList _ _ _ := .error ()
  getStudent _ _ _ := .error ()
  setList _ _ _ _ _ := .error ()
  setStudent _ _ _ _ _ := .error ()
  removeKey _ _ := .error ()
  removeByPattern _ _ := .error ()

/-- A cache backend in which only the removal of the specific record key
throws; the collection-key removal and the pattern sweep would succeed. -/
def removeThrowingCacheOps : CacheOps Unit where
  getList cs _ _ := .ok (none, cs)
  getStudent cs _ _ := .ok (none, cs)
  setList cs _ _ _ _ := .ok cs
  setStudent cs _ _ _ _ := .ok cs
  removeKey cs k := if k == allKey then .ok cs else .error ()
  removeByPattern cs _ := .ok cs

/-- C2 counterexample: `StudentService` wraps no cache call in a handler, so
cache-layer errors do decide outcomes.  With an unreachable cache backend a
read returns the error instead of falling through to persistence (which
holds the data), and with only the first invalidation removal throwing, an
update and a delete of an existing record return the error instead of their
success results (the remaining removals are skipped). -/
theorem C2_counterexample :
    (getAllStudents throwingCacheOps () (Db.mk [⟨1, "Ada", 0, 99, true⟩] 2 0) 0
      = .error ())
    ∧ (getStudentById throwingCacheOps () (Db.mk [⟨1, "Ada", 0, 99, true⟩] 2 0) 1 0
      = .error ())
    ∧ (updateStudent removeThrowingCacheOps () (Db.mk [⟨1, "Ada", 0, 99, true⟩] 2 0) 1
        ⟨0, "Ada2", 0, 90, true⟩ = .error ())
    ∧ (deleteStudent removeThrowingCacheOps () (Db.mk [⟨1, "Ada", 0, 99, true⟩] 2 0) 1
      = .error ()) := by
  refine ⟨by decide, by decide, by decide, by decide⟩

/-- C2 (amended): deserialization failures are the one local cache error —
a live but corrupt cached payload is treated as a miss and the read falls
through to persistence — and the in-process cache operations themselves
never throw, so every service operation over it returns `ok`; but a thrown
cache-backend error is not absorbed: a failing cache read aborts the read
without consulting persistence, and a failure of the first invalidation
removal aborts the remaining removals and the whole mutating call. -/
theorem C2_amended {σ : Type} (dL : String → Option (List StudentDto))
    (dO : String → Option StudentDto) (cs : MemCache CacheVal) (db : Db)
    (id : Int) (ex s : Student) (cor : String) (e now : Time)
    (C : CacheOps σ) (fs : σ)
    (hCor : lookupEntry cs.entries (studentKey id) = some ⟨.str cor, e⟩)
    (hDec : dO cor = none)
    (hFound : db.students.find? (fun t => t.studentId == id) = some ex)
    (hGetErr : C.getStudent fs (studentKey id) now = .error ())
    (hRemErr : C.removeKey fs (studentKey id) = .error ()) :
    (getStudentById (memCacheOps dL dO) cs db id now
      = .ok (some (toDto ex),
             cs.set (studentKey id) (.typed (.one (toDto ex))) 10 now,
             { db with calls := db.calls + 1 }))
    ∧ (∃ x, getAllStudents (memCacheOps dL dO) cs db now = .ok x)
    ∧ (∃ x, getStudentById (memCacheOps dL dO) cs db id now = .ok x)
    ∧ (∃ x, createStudent (memCacheOps dL dO) cs db s = .ok x)
    ∧ (∃ x, updateStudent (memCacheOps dL dO) cs db id s = .ok x)
    ∧ (∃ x, deleteStudent (memCacheOps dL dO) cs db id = .ok x)
    ∧ (getStudentById C fs db id now = .error ())
    ∧ (updateStudent C fs db id s = .error ())
    ∧ (deleteStudent C fs db id = .error ()) := by
  have hCorVal : cs.getVal (objCast dO tcastOne) (studentKey id) now = none := by
    by_cases hlt : now < e <;> simp [MemCache.getVal, hCor, hlt, objCast, hDec]
  refine ⟨getById_mem_miss_found dL dO cs db now id ex hCorVal hFound, ?_, ?_, ?_, ?_, ?_,
    ?_, ?_, ?_⟩
  · cases hl : cs.getVal (objCast dL tcastList) allKey now with
    | none => exact ⟨_, getAll_mem_miss dL dO cs db now hl⟩
    | some l => exact ⟨_, getAll_mem_hit dL dO cs db now l hl⟩
  · exact ⟨_, getById_mem_miss_found dL dO cs db now id ex hCorVal hFound⟩
  · exact ⟨_, create_mem dL dO cs db s⟩
  · exact ⟨_, update_mem_found dL dO cs db id s ex hFound⟩
  · exact ⟨_, delete_mem_found dL dO cs db id ex hFound⟩
  · simp [getStudentById, hGetErr]
  · simp [updateStudent, Db.findById, hFound, invalidateStudentCache, hRemErr]
  · simp [deleteStudent, Db.findById, hFound, invalidateStudentCache, hRemErr]

/-- C2 amended witness: concrete corrupt payload, one-student store, and
the all-throwing backend. -/
theorem C2_amended_witness :
    (lookupEntry (((emptyMem CacheVal).set (studentKey 1) (.str "junk") 7 0).entries)
        (studentKey 1) = some ⟨.str "junk", 7⟩)
    ∧ ((Db.mk [⟨1, "Ada", 0, 99, true⟩] 2 0).students.find?
        (fun t => t.studentId == 1) = some ⟨1, "Ada", 0, 99, true⟩)
    ∧ (getStudentById (memCacheOps (fun _ => none) (fun _ => none))
        ((emptyMem CacheVal).set (studentKey 1) (.str "junk") 7 0)
        (Db.mk [⟨1, "Ada", 0, 99, true⟩] 2 0) 1 0
      = .ok (some ⟨1, "Ada", 0, 99, true⟩,
             ((emptyMem CacheVal).set (studentKey 1) (.str "junk") 7 0).set
               (studentKey 1) (.typed (.one ⟨1, "Ada", 0, 99, true⟩)) 10 0,
             Db.mk [⟨1, "Ada", 0, 99, true⟩] 2 1)) := by
  refine ⟨by decide, by decide, ?_⟩
  have h := (C2_amended (fun _ => none) (fun _ => none)
    ((emptyMem CacheVal).set (studentKey 1) (.str "junk") 7 0)
    (Db.mk [⟨1, "Ada", 0, 99, true⟩] 2 0) 1 ⟨1, "Ada", 0, 99, true⟩
    ⟨0, "x", 0, 0, true⟩ "junk" 7 0 throwingCacheOps ()
    (by decide) (by decide) (by decide) (by decide) (by decide)).1
  exact h.trans (by decide)

/-! ### Claim C9: behavioral equivalence of the two variants -/

/-- One step of a differential test script: elapsed time since the previous
operation, plus the operation. -/
inductive ScriptOp (α : Type) where
  | setOp (k : String) (v : α) (ttl : Time)
  | getOp (k : String)
  | removeOp (k : String)
  | existsOp (k : String)
  | removePatternOp (p : String)

/-- What one script step observes. -/
inductive Obs (α : Type) where
  | val : Option α → Obs α
  | flag : Bool → Obs α
  | done : Obs α
deriving DecidableEq

/-- Run a script against `MemoryCacheService`.  The runtime's expired-entry
eviction (which fires the callbacks registered by `SetAsync`) is modelled
as having run at the start of each step. -/
def runMemScript {α : Type} (dec : String → Option α) :
    List (Time × ScriptOp α) → MemCache α → Time → List (Obs α)
  | [], _, _ => []
  | (dt, op) :: rest, c, t =>
    match op with
    | .setOp k v ttl =>
      .done :: runMemScript dec rest ((c.purge (t + dt)).set k (.typed v) ttl (t + dt))
        (t + dt)
    | .getOp k =>
      .val ((c.purge (t + dt)).getVal (objCast dec some) k (t + dt))
        :: runMemScript dec rest (c.purge (t + dt)) (t + dt)
    | .removeOp k =>
      .done :: runMemScript dec rest ((c.purge (t + dt)).remove k) (t + dt)
    | .existsOp k =>
      .flag ((c.purge (t + dt)).existsKey k)
        :: runMemScript dec rest (c.purge (t + dt)) (t + dt)
    | .removePatternOp p =>
      .done :: runMemScript dec rest ((c.purge (t + dt)).removeByPattern p) (t + dt)

/-- Run the same script against `RedisCacheService` (the remote store
handles expiry itself; values go through serialization). -/
def runRedisScript {α : Type} (enc : α → String) (dec : String → Option α) :
    List (Time × ScriptOp α) → RedisCache → Time → List (Obs α)
  | [], _, _ => []
  | (dt, op) :: rest, r, t =>
    match op with
    | .setOp k v ttl =>
      .done :: runRedisScript enc dec rest (r.set k (enc v) ttl (t + dt)) (t + dt)
    | .getOp k =>
      .val (r.getVal dec k (t + dt)) :: runRedisScript enc dec rest r (t + dt)
    | .removeOp k =>
      .done :: runRedisScript enc dec rest (r.remove k) (t + dt)
    | .existsOp k =>
      .flag (r.existsKey k (t + dt)) :: runRedisScript enc dec rest r (t + dt)
    | .removePatternOp p =>
      .done :: runRedisScript enc dec rest (r.removeByPattern p (t + dt)) (t + dt)

/-- C9 counterexample: the same script observed against the two variants
gives different results — after `set "xa:1"` and `removeByPattern "a:*"`,
the in-process variant reports the key gone (its unanchored sweep matched
it) while the shared variant still has it (anchored glob, no match). -/
theorem C9_counterexample :
    runMemScript natDecode
      [(0, .setOp "xa:1" 1 100), (0, .removePatternOp "a:*"), (0, .existsOp "xa:1")]
      (emptyMem Nat) 0
      = [.done, .done, .flag false]
    ∧ runRedisScript Nat.repr natDecode
      [(0, .setOp "xa:1" 1 100), (0, .removePatternOp "a:*"), (0, .existsOp "xa:1")]
      emptyRedis 0
      = [.done, .done, .flag true] := by
  refine ⟨by decide, by decide⟩

/-- `true` iff the script contains no pattern-removal step. -/
def hasNoPatternOp {α : Type} (script : List (Time × ScriptOp α)) : Bool :=
  script.all (fun e =>
    match e.2 with
    | .removePatternOp _ => false
    | _ => true)

/-- The simulation relation between the two variants: the in-process store
is duplicate-free, its tracker is consistent, every in-process entry is a
typed payload mirrored (serialized, same expiry) in the remote store, and
every live remote entry is mirrored in the in-process store. -/
def Coupled {α : Type} (enc : α → String) (c : MemCache α) (r : RedisCache)
    (t : Time) : Prop :=
  (keysOf c.entries).Nodup
  ∧ (∀ k, k ∈ c.keyTracker ↔ (lookupEntry c.entries k).isSome)
  ∧ (∀ k ent, lookupEntry c.entries k = some ent →
      ∃ v, ent.val = ObjVal.typed v ∧ lookupEntry r.entries k = some (enc v, ent.expiry))
  ∧ (∀ k p e, lookupEntry r.entries k = some (p, e) → t < e →
      ∃ v, p = enc v ∧ lookupEntry c.entries k = some ⟨ObjVal.typed v, e⟩)

theorem purge_live {α : Type} (c : MemCache α) (t : Time)
    (hnd : (keysOf c.entries).Nodup) :
    ∀ k ent, lookupEntry ((c.purge t).entries) k = some ent → t < ent.expiry := by
  intro k ent hent
  rw [lookup_purge c t k hnd] at hent
  cases hl : lookupEntry c.entries k with
  | none => rw [hl] at hent; cases hent
  | some ent0 =>
    rw [hl] at hent
    by_cases hq : t < ent0.expiry
    · simp only [Option.some_bind, if_pos hq, Option.some.injEq] at hent
      rw [← hent]
      exact hq
    · simp [hq] at hent

theorem coupled_purge {α : Type} {enc : α → String} {c : MemCache α} {r : RedisCache}
    {t t' : Time} (h : Coupled enc c r t) (hle : t ≤ t') :
    Coupled enc (c.purge t') r t' := by
  obtain ⟨hnd, htr, hmr, hrm⟩ := h
  have hTI : TrackerInv (c.purge t') := trackerInv_apply c (.purgeOp t') ⟨hnd, htr⟩
  refine ⟨hTI.1, hTI.2, ?_, ?_⟩
  · intro k ent hent
    rw [lookup_purge c t' k hnd] at hent
    cases hl : lookupEntry c.entries k with
    | none => rw [hl] at hent; cases hent
    | some ent0 =>
      rw [hl] at hent
      by_cases hq : t' < ent0.expiry
      · simp only [Option.some_bind, if_pos hq, Option.some.injEq] at hent
        rw [← hent]
        exact hmr _ _ hl
      · simp [hq] at hent
  · intro k p e hre hlt
    obtain ⟨v, hpv, hml⟩ := hrm k p e hre (lt_of_le_of_lt hle hlt)
    refine ⟨v, hpv, ?_⟩
    rw [lookup_purge c t' k hnd, hml]
    simp [hlt]

theorem coupled_set {α : Type} {enc : α → String} {c : MemCache α} {r : RedisCache}
    {t : Time} (h : Coupled enc c r t) (k : String) (v : α) (ttl : Time) :
    Coupled enc (c.set k (.typed v) ttl t) (r.set k (enc v) ttl t) t := by
  obtain ⟨hnd, htr, hmr, hrm⟩ := h
  have hTI : TrackerInv (c.set k (.typed v) ttl t) :=
    trackerInv_apply c (.setOp k (.typed v) ttl t) ⟨hnd, htr⟩
  refine ⟨hTI.1, hTI.2, ?_, ?_⟩
  · intro k' ent hent
    rw [MemCache.lookup_set] at hent
    rw [RedisCache.redis_lookup_set]
    by_cases hk : k' = k
    · rw [if_pos hk] at hent
      rw [if_pos hk]
      have hment := Option.some.inj hent
      rw [← hment]
      exact ⟨v, rfl, rfl⟩
    · rw [if_neg hk] at hent
      rw [if_neg hk]
      exact hmr k' ent hent
  · intro k' p e hre hlt
    rw [RedisCache.redis_lookup_set] at hre
    by_cases hk : k' = k
    · rw [if_pos hk] at hre
      have hpe := Option.some.inj hre
      have hp1 : p = enc v := (congrArg Prod.fst hpe).symm
      have hp2 : e = t + ttl := (congrArg Prod.snd hpe).symm
      subst hp1
      subst hp2
      exact ⟨v, rfl, by rw [MemCache.lookup_set, if_pos hk]⟩
    · rw [if_neg hk] at hre
      obtain ⟨v', hpv, hml⟩ := hrm k' p e hre hlt
      refine ⟨v', hpv, ?_⟩
      rw [MemCache.lookup_set, if_neg hk]
      exact hml

theorem coupled_remove {α : Type} {enc : α → String} {c : MemCache α}
    {r : RedisCache} {t : Time} (h : Coupled enc c r t) (k : String) :
    Coupled enc (c.remove k) (r.remove k) t := by
  obtain ⟨hnd, htr, hmr, hrm⟩ := h
  have hTI : TrackerInv (c.remove k) := trackerInv_apply c (.removeOp k) ⟨hnd, htr⟩
  refine ⟨hTI.1, hTI.2, ?_, ?_⟩
  · intro k' ent hent
    rw [MemCache.lookup_remove] at hent
    rw [RedisCache.redis_lookup_remove]
    by_cases hk : k' = k
    · rw [if_pos hk] at hent; cases hent
    · rw [if_neg hk] at hent
      rw [if_neg hk]
      exact hmr k' ent hent
  · intro k' p e hre hlt
    rw [RedisCache.redis_lookup_remove] at hre
    by_cases hk : k' = k
    · rw [if_pos hk] at hre; cases hre
    · rw [if_neg hk] at hre
      obtain ⟨v', hpv, hml⟩ := hrm k' p e hre hlt
      refine ⟨v', hpv, ?_⟩
      rw [MemCache.lookup_remove, if_neg hk]
      exact hml

theorem coupled_get {α : Type} {enc : α → String} {dec : String → Option α}
    {c : MemCache α} {r : RedisCache} {t : Time}
    (hrt : ∀ a, dec (enc a) = some a) (h : Coupled enc c r t) (k : String) :
    c.getVal (objCast dec some) k t = r.getVal dec k t := by
  obtain ⟨hnd, htr, hmr, hrm⟩ := h
  cases hl : lookupEntry c.entries k with
  | some ent =>
    obtain ⟨v, hval, hre⟩ := hmr k ent hl
    by_cases hq : t < ent.expiry <;>
      simp [MemCache.getVal, RedisCache.getVal, hl, hre, hval, objCast, hq, hrt v]
  | none =>
    cases hr : lookupEntry r.entries k with
    | none => simp [MemCache.getVal, RedisCache.getVal, hl, hr]
    | some pe =>
      obtain ⟨p, e⟩ := pe
      by_cases hq : t < e
      · obtain ⟨v, _, hml⟩ := hrm k p e hr hq
        rw [hml] at hl
        cases hl
      · simp [MemCache.getVal, RedisCache.getVal, hl, hr, hq]

theorem coupled_exists {α : Type} {enc : α → String} {c : MemCache α}
    {r : RedisCache} {t : Time} (h : Coupled enc c r t)
    (hlive : ∀ k ent, lookupEntry c.entries k = some ent → t < ent.expiry)
    (k : String) : c.existsKey k = r.existsKey k t := by
  obtain ⟨hnd, htr, hmr, hrm⟩ := h
  rw [Bool.eq_iff_iff, MemCache.existsKey_iff, htr k]
  cases hl : lookupEntry c.entries k with
  | some ent =>
    obtain ⟨v, hval, hre⟩ := hmr k ent hl
    simp [RedisCache.existsKey, hre, hlive k ent hl]
  | none =>
    simp only [Option.isSome_none, Bool.false_eq_true, false_iff]
    rw [RedisCache.existsKey]
    cases hr : lookupEntry r.entries k with
    | none => simp
    | some pe =>
      obtain ⟨p, e⟩ := pe
      by_cases hq : t < e
      · obtain ⟨v, _, hml⟩ := hrm k p e hr hq
        rw [hml] at hl
        cases hl
      · simp [hq]

theorem runScripts_eq {α : Type} (enc : α → String) (dec : String → Option α)
    (hrt : ∀ a, dec (enc a) = some a) :
    ∀ (script : List (Time × ScriptOp α)) (c : MemCache α) (r : RedisCache) (t : Time),
      Coupled enc c r t → hasNoPatternOp script = true →
      runMemScript dec script c t = runRedisScript enc dec script r t := by
  intro script
  induction script with
  | nil => intro c r t _ _; rfl
  | cons step rest ih =>
    obtain ⟨dt, op⟩ := step
    intro c r t hco hnp
    simp only [hasNoPatternOp, List.all_cons, Bool.and_eq_true] at hnp
    obtain ⟨hhead, hnp'⟩ := hnp
    have hco' : Coupled enc (c.purge (t + dt)) r (t + dt) :=
      coupled_purge hco (Nat.le_add_right t dt)
    have hlive := purge_live c (t + dt) hco.1
    cases op with
    | setOp k v ttl =>
      simp only [runMemScript, runRedisScript]
      rw [ih _ _ _ (coupled_set hco' k v ttl) hnp']
    | getOp k =>
      simp only [runMemScript, runRedisScript]
      rw [coupled_get hrt hco' k, ih _ _ _ hco' hnp']
    | removeOp k =>
      simp only [runMemScript, runRedisScript]
      rw [ih _ _ _ (coupled_remove hco' k) hnp']
    | existsOp k =>
      simp only [runMemScript, runRedisScript]
      rw [coupled_exists hco' hlive k, ih _ _ _ hco' hnp']
    | removePatternOp p => exact Bool.noConfusion hhead

/-- C9 (amended): restricted to scripts without pattern removal — where the
two variants genuinely differ (unanchored case-insensitive search versus
anchored case-sensitive glob) — and granting the in-process runtime its
expired-entry eviction and a serialization that round-trips, the two cache
variants produce identical observations on every script. -/
theorem C9_amended {α : Type} (enc : α → String) (dec : String → Option α)
    (hrt : ∀ a, dec (enc a) = some a) (script : List (Time × ScriptOp α))
    (hnp : hasNoPatternOp script = true) :
    runMemScript dec script (emptyMem α) 0
      = runRedisScript enc dec script emptyRedis 0 := by
  refine runScripts_eq enc dec hrt script _ _ 0 ⟨List.nodup_nil, ?_, ?_, ?_⟩ hnp
  · intro k
    simp [emptyMem, lookupEntry]
  · intro k ent hent
    simp [emptyMem, lookupEntry] at hent
  · intro k p e hre hlt
    simp [emptyRedis, lookupEntry] at hre

/-- C9 amended witness: a five-step set/get/exists script over `Bool`
payloads, run to both sides of the TTL boundary. -/
theorem C9_amended_witness :
    (∀ a : Bool, (fun s => if s == "T" then some true
        else if s == "F" then some false else none)
      ((fun b : Bool => if b then "T" else "F") a) = some a)
    ∧ hasNoPatternOp [((0 : Time), ScriptOp.setOp "k" true 5), (3, .getOp "k"),
        (0, .existsOp "k"), (2, .getOp "k"), (0, .existsOp "k")] = true
    ∧ runMemScript (fun s => if s == "T" then some true
        else if s == "F" then some false else none)
        [((0 : Time), ScriptOp.setOp "k" true 5), (3, .getOp "k"),
         (0, .existsOp "k"), (2, .getOp "k"), (0, .existsOp "k")]
        (emptyMem Bool) 0
      = runRedisScript (fun b : Bool => if b then "T" else "F")
        (fun s => if s == "T" then some true
          else if s == "F" then some false else none)
        [((0 : Time), ScriptOp.setOp "k" true 5), (3, .getOp "k"),
         (0, .existsOp "k"), (2, .getOp "k"), (0, .existsOp "k")]
        emptyRedis 0 :=
  ⟨by decide, by decide,
    C9_amended (fun b : Bool => if b then "T" else "F")
      (fun s => if s == "T" then some true else if s == "F" then some false else none)
      (by decide)
      [((0 : Time), ScriptOp.setOp "k" true 5), (3, .getOp "k"), (0, .existsOp "k"),
       (2, .getOp "k"), (0, .existsOp "k")]
      (by decide)⟩

end StudentCache

